import Mathlib

/-!
Shallow embedding of the d20 dice-rolling library (package `d20`).

The Go standard-library pseudo-random generator (`math/rand`) is modelled as a
pure stream of natural numbers together with a position counter: `Intn n`
returns `stream pos % n` and advances the position.  `rand.New(rand.NewSource(seed))`
is modelled by `NewRoller`, which installs the stream determined by the seed at
position `0`.  Go `int` is modelled by `Int`; Go `uint` (roll count, die faces)
by `Nat`.  Functions that in Go return `(value, error)` pairs are modelled as
returning the value together with an `Option String` error component.
-/

namespace D20

/-- Model of the `math/rand` generator state owned by a `Roller`:
a fixed draw stream and the current position in it. -/
structure Rng where
  stream : Nat → Nat
  pos : Nat

/-- Model of `rng.Intn(n)`: returns a value in `[0, n)` (for `n > 0`) and
advances the generator. -/
def intn (n : Nat) (r : Rng) : Int × Rng :=
  (((r.stream r.pos % n : Nat) : Int), { r with pos := r.pos + 1 })

/-- Model of `NewRoller(seed)` from `roller.go`: a fresh generator built from the
seed-determined stream, at position 0. -/
def NewRoller (src : Nat → Nat) : Rng :=
  { stream := src, pos := 0 }

/-- The `Modifier` struct from `modifier.go`: a named signed adjustment. -/
structure Modifier where
  Value : Int
  Reason : String
deriving DecidableEq, Repr

/-- Model of Go ASCII lower-casing of a single character (the inputs reaching
it in this development are ASCII). -/
def goToLower (c : Char) : Char :=
  if 65 ≤ c.toNat ∧ c.toNat ≤ 90 then Char.ofNat (c.toNat + 32) else c

/-- Model of `strings.ToLower` on a string. -/
def lowerStr (s : String) : String :=
  String.mk (s.data.map goToLower)

/-- `NewModifier(reason, value)` from `modifier.go`: lowercases the reason. -/
def NewModifier (reason : String) (value : Int) : Modifier :=
  { Value := value, Reason := lowerStr reason }

/-- The `AdvantageType` enumeration. -/
inductive AdvantageType where
  | Normal
  | Advantage
  | Disadvantage
deriving DecidableEq, Repr

/-- Model of `strings.Join(parts, sep)`. -/
def joinSep (sep : String) : List String → String
  | [] => ""
  | [a] => a
  | a :: b :: rest => a ++ sep ++ joinSep sep (b :: rest)

/-- Rendering of one modifier inside `formatRollDetail`: sign `+` for
non-negative values, the value's own minus sign otherwise, then the
lowercased reason. -/
def fmtMod (m : Modifier) : String :=
  (if m.Value < 0 then "" else "+") ++ m.Value.repr ++ " " ++ lowerStr m.Reason

/-- `formatRollDetail`, the parts-list generation of the formatter (the one
whose output carries the `values` keyword): header part, optional values
part, optional modifiers part, result part, joined with "; ". -/
def formatRollDetail (rollCount dieFaces : Nat) (rolls : List Int)
    (modifiers : List Modifier) (finalValue : Int) : String :=
  let parts := ["Rolled " ++ rollCount.repr ++ "d" ++ dieFaces.repr ++ "..."]
  let parts := if rolls.length > 0 then
      parts ++ ["values " ++ joinSep ", " (rolls.map Int.repr)]
    else parts
  let parts := if modifiers.length > 0 then
      parts ++ [joinSep ", " (modifiers.map fmtMod)]
    else parts
  let parts := parts ++ ["*Result: " ++ finalValue.repr ++ "*"]
  joinSep "; " parts

/-- `formatRollDetail` as it stands in `roll_outcome.go`: the generation that
appends the dice values after a single space — no `values` keyword, the dice
list is not a "; "-joined clause — then the optional modifiers clause and the
result clause. -/
def formatRollDetailPlain (rollCount dieFaces : Nat) (rolls : List Int)
    (modifiers : List Modifier) (finalValue : Int) : String :=
  let result := "Rolled " ++ rollCount.repr ++ "d" ++ dieFaces.repr ++ "..."
  let result := if rolls.length > 0 then
      result ++ (" " ++ joinSep ", " (rolls.map Int.repr))
    else result
  let result := if modifiers.length > 0 then
      result ++ ("; " ++ joinSep ", " (modifiers.map fmtMod))
    else result
  result ++ ("; *Result: " ++ finalValue.repr ++ "*")

/-- The `RollOutcome` struct from `roll_outcome.go`. -/
structure RollOutcome where
  Value : Int
  DiceRolls : List Int
  Detail : String
deriving DecidableEq, Repr

/-- The Go zero value of `RollOutcome`, returned alongside errors. -/
def zeroOutcome : RollOutcome :=
  { Value := 0, DiceRolls := [], Detail := "" }

/-- `NewRollOutcome` from `roll_outcome.go`. -/
def NewRollOutcome (rollCount dieFaces : Nat) (rolls : List Int)
    (modifiers : List Modifier) (finalValue : Int) : RollOutcome :=
  { Value := finalValue
    DiceRolls := rolls
    Detail := formatRollDetail rollCount dieFaces rolls modifiers finalValue }

/-- The `RollBuilder` configuration from `roller.go` (the roller reference is
separated out: `Roll` takes the generator explicitly). -/
structure RollBuilder where
  rollCount : Nat
  dieFaces : Nat
  modifiers : List Modifier
  advantageType : AdvantageType

/-- `Dice(rollCount, dieFaces)` from `roller.go`. -/
def Dice (rollCount dieFaces : Nat) : RollBuilder :=
  { rollCount := rollCount, dieFaces := dieFaces, modifiers := []
    advantageType := .Normal }

/-- Error message of `errRollCountZero` in `roller.go`. -/
def errRollCountZero : String := "rollCount must be greater than 0"

/-- Error message of `errDieFacesZero` in `roller.go`. -/
def errDieFacesZero : String := "dieFaces must be greater than 0"

/-- The `Normal` loop body of `RollBuilder.Roll`: draw `n` dice sequentially,
returning the rolls in draw order, their running total, and the new
generator state. -/
def rollNormal : Nat → Nat → Rng → List Int × Int × Rng
  | 0, _, r => ([], 0, r)
  | n + 1, faces, r =>
    let (v, r1) := intn faces r
    let (rest, total, r2) := rollNormal n faces r1
    ((v + 1) :: rest, (v + 1) + total, r2)

/-- The `Advantage`/`Disadvantage` loop body of `RollBuilder.Roll`: per logical
die draw two dice, append both, and add `sel` of the pair to the total
(`sel` is `max` for Advantage, `min` for Disadvantage). -/
def rollWithSel (sel : Int → Int → Int) : Nat → Nat → Rng → List Int × Int × Rng
  | 0, _, r => ([], 0, r)
  | n + 1, faces, r =>
    let (a, r1) := intn faces r
    let (b, r2) := intn faces r1
    let (rest, total, r3) := rollWithSel sel n faces r2
    ((a + 1) :: (b + 1) :: rest, sel (a + 1) (b + 1) + total, r3)

/-- Sum of modifier values, as accumulated by the loop in `RollBuilder.Roll`. -/
def sumMods : List Modifier → Int
  | [] => 0
  | m :: rest => m.Value + sumMods rest

/-- `RollBuilder.Roll` from `roller.go`: validation first (generator untouched
on failure, zero outcome plus error returned), then the mode-dependent dice
loop, then the modifier sum and outcome construction. -/
def Roll (rb : RollBuilder) (r : Rng) : RollOutcome × Option String × Rng :=
  if rb.rollCount = 0 then (zeroOutcome, some errRollCountZero, r)
  else if rb.dieFaces = 0 then (zeroOutcome, some errDieFacesZero, r)
  else
    let drawn :=
      match rb.advantageType with
      | .Normal => rollNormal rb.rollCount rb.dieFaces r
      | .Advantage => rollWithSel max rb.rollCount rb.dieFaces r
      | .Disadvantage => rollWithSel min rb.rollCount rb.dieFaces r
    let rolls := drawn.1
    let diceTotal := drawn.2.1
    let modifierTotal := sumMods rb.modifiers
    (NewRollOutcome rb.rollCount rb.dieFaces rolls rb.modifiers
      (diceTotal + modifierTotal), none, drawn.2.2)

/-- Sum of the selected value of each consecutive pair of a list (the value a
pair contributes to an Advantage/Disadvantage total). -/
def pairSelSum (sel : Int → Int → Int) : List Int → Int
  | a :: b :: rest => sel a b + pairSelSum sel rest
  | _ => 0

/-- The `Actor` struct from `actor.go`; the Go string-keyed map of attributes
is modelled as an association list (keys stored lowercased, as every write
path lowercases them). -/
structure Actor where
  id : String
  maxHP : Int
  currentHP : Int
  ac : Int
  initiative : Int
  combatModifiers : List Modifier
  attributes : List (String × Int)

/-- Model of `Actor.Attribute(key)`: map lookup with the lowercased key. -/
def attrLookup (attrs : List (String × Int)) (key : String) : Option Int :=
  attrs.lookup (lowerStr key)

/-- `Actor.SetHP` from `actor.go`: validation errors leave the actor
unchanged. -/
def SetHP (a : Actor) (hp : Int) : Option String × Actor :=
  if hp < 0 then (some ("hp cannot be negative, got " ++ hp.repr), a)
  else if hp > a.maxHP then
    (some ("hp cannot exceed max HP (" ++ a.maxHP.repr ++ "), got " ++ hp.repr), a)
  else (none, { a with currentHP := hp })

/-- `Actor.SetMaxHP` from `actor.go`. -/
def SetMaxHP (a : Actor) (m : Int) : Option String × Actor :=
  if m ≤ 0 then (some ("max hp must be greater than 0, got " ++ m.repr), a)
  else
    let a1 : Actor := { a with maxHP := m }
    if a1.currentHP > a1.maxHP then (none, { a1 with currentHP := a1.maxHP })
    else (none, a1)

/-- `Actor.SubHP` from `actor.go`: subtract, clamp below at 0. -/
def SubHP (a : Actor) (damage : Int) : Actor :=
  let a1 : Actor := { a with currentHP := a.currentHP - damage }
  if a1.currentHP < 0 then { a1 with currentHP := 0 } else a1

/-- `Actor.AddHP` from `actor.go`: add, clamp above at `maxHP`. -/
def AddHP (a : Actor) (amount : Int) : Actor :=
  let a1 : Actor := { a with currentHP := a.currentHP + amount }
  if a1.currentHP > a1.maxHP then { a1 with currentHP := a1.maxHP } else a1

/-- `Actor.ResetHP` from `actor.go`. -/
def ResetHP (a : Actor) : Actor :=
  { a with currentHP := a.maxHP }

/-- `Actor.SetAC` from `actor.go`. -/
def SetAC (a : Actor) (ac : Int) : Option String × Actor :=
  if ac ≤ 0 then (some ("ac must be greater than 0, got " ++ ac.repr), a)
  else (none, { a with ac := ac })

/-- One HP-mutating call on an actor. -/
inductive HPOp where
  | setHP (n : Int)
  | setMaxHP (n : Int)
  | subHP (n : Int)
  | addHP (n : Int)
  | resetHP

/-- Apply one HP operation (errors leave the actor unchanged, as in the Go
methods). -/
def applyHPOp (a : Actor) : HPOp → Actor
  | .setHP n => (SetHP a n).2
  | .setMaxHP n => (SetMaxHP a n).2
  | .subHP n => SubHP a n
  | .addHP n => AddHP a n
  | .resetHP => ResetHP a

/-- Apply a sequence of HP operations in order. -/
def applyHPOps (a : Actor) : List HPOp → Actor
  | [] => a
  | op :: rest => applyHPOps (applyHPOp a op) rest

/-- The tens-digit loop of `D100SkillCheck` for `bonus > 0`: draw `k` d10s,
keep the lowest seen so far (accumulator starts at 9 in the caller). -/
def bestTensLoop : Nat → Int → Rng → Int × Rng
  | 0, acc, r => (acc, r)
  | k + 1, acc, r =>
    let (v, r1) := intn 10 r
    bestTensLoop k (if v < acc then v else acc) r1

/-- The tens-digit loop of `D100SkillCheck` for `bonus < 0`: draw `k` d10s,
keep the highest seen so far (accumulator starts at 0 in the caller). -/
def worstTensLoop : Nat → Int → Rng → Int × Rng
  | 0, acc, r => (acc, r)
  | k + 1, acc, r =>
    let (v, r1) := intn 10 r
    worstTensLoop k (if v > acc then v else acc) r1

/-- `Actor.D100SkillCheck` from `actor.go`: percentile roll-under check with
bonus/penalty dice; returns (success, outcome, error) and the generator. -/
def D100SkillCheck (a : Actor) (skill : String) (r : Rng) (bonus : Int) :
    (Bool × RollOutcome × Option String) × Rng :=
  match attrLookup a.attributes skill with
  | none =>
    ((false, zeroOutcome,
      some ("skill \"" ++ skill ++ "\" not found in actor attributes")), r)
  | some skillValue =>
    let drawn :=
      if bonus = 0 then
        let (t, r1) := intn 10 r
        let (o, r2) := intn 10 r1
        (t * 10, o, r2)
      else if bonus > 0 then
        let (best, r1) := bestTensLoop (bonus + 1).toNat 9 r
        let (o, r2) := intn 10 r1
        (best * 10, o, r2)
      else
        let (worst, r1) := worstTensLoop (-bonus + 1).toNat 0 r
        let (o, r2) := intn 10 r1
        (worst * 10, o, r2)
    let result0 := drawn.1 + drawn.2.1
    let result := if result0 = 0 then 100 else result0
    let success := decide (result ≤ skillValue)
    let outcome := NewRollOutcome 1 100 [result]
      [{ Value := skillValue, Reason := lowerStr skill ++ " (target)" }] result
    ((success, outcome, none), drawn.2.2)

/-- The `ActorBuilder` configuration struct (builder version of the actor
API). -/
structure ActorBuilder where
  id : String
  maxHP : Int
  ac : Int
  initiative : Int
  combatModifiers : List Modifier
  attributes : List (String × Int)

/-- `ActorBuilder.Build`: validates HP and AC, then constructs the actor at
full hit points with the configured fields. -/
def Build (ab : ActorBuilder) : Except String Actor :=
  if ab.maxHP ≤ 0 then
    .error ("hp must be greater than 0, got " ++ ab.maxHP.repr)
  else if ab.ac ≤ 0 then
    .error ("ac must be greater than 0, got " ++ ab.ac.repr)
  else
    .ok { id := ab.id, maxHP := ab.maxHP, currentHP := ab.maxHP, ac := ab.ac
          initiative := ab.initiative, combatModifiers := ab.combatModifiers
          attributes := ab.attributes }

/-- Test whether a character is in `[a-z0-9]` (the complement of the
`nonAlphaNumeric` character class after lowercasing). -/
def isLowerAlnum (c : Char) : Bool :=
  (97 ≤ c.toNat && c.toNat ≤ 122) || (48 ≤ c.toNat && c.toNat ≤ 57)

/-- Model of `nonAlphaNumeric.ReplaceAllString(id, "_")`: every maximal run of
characters outside `[a-z0-9]` becomes a single underscore; the flag records
whether the previous character was inside such a run. -/
def collapseAux : Bool → List Char → List Char
  | _, [] => []
  | inRun, c :: rest =>
    if isLowerAlnum c then c :: collapseAux false rest
    else if inRun then collapseAux true rest
    else '_' :: collapseAux true rest

/-- Remove the maximal all-underscore suffix. -/
def trimTrailing : List Char → List Char
  | [] => []
  | c :: rest =>
    let t := trimTrailing rest
    if t.isEmpty && c == '_' then [] else c :: t

/-- Model of `strings.Trim(id, "_")`: drop leading and trailing
underscores. -/
def trimUnderscores (l : List Char) : List Char :=
  trimTrailing (l.dropWhile (fun c => c == '_'))

/-- `normalizeID` from `actor.go` at the character-list level: lowercase,
collapse non-alphanumeric runs to single underscores, trim underscores. -/
def normalizeChars (l : List Char) : List Char :=
  trimUnderscores (collapseAux false (l.map goToLower))

/-- `normalizeID` from `actor.go`. -/
def normalizeID (s : String) : String :=
  String.mk (normalizeChars s.data)

/-- `NewActor(id, hp, ac)`: the builder entry point; normalizes the id and
defaults initiative to 0. -/
def NewActor (id : String) (hp ac : Int) : ActorBuilder :=
  { id := normalizeID id, maxHP := hp, ac := ac, initiative := 0
    combatModifiers := [], attributes := [] }

/-- Test for an ASCII decimal digit (the regex class `\d` on the inputs in
scope). -/
def isDigitCh (c : Char) : Bool :=
  48 ≤ c.toNat && c.toNat ≤ 57

/-- Whitespace recognized by `strings.TrimSpace` (ASCII part). -/
def isSpaceCh (c : Char) : Bool :=
  c == ' ' || c == '\t' || c == '\n' || c == '\r' ||
    c == Char.ofNat 11 || c == Char.ofNat 12

/-- Model of `strings.TrimSpace`. -/
def trimSpace (l : List Char) : List Char :=
  ((l.dropWhile isSpaceCh).reverse.dropWhile isSpaceCh).reverse

/-- Digit string to number (`strconv.Atoi` on an all-digit string). -/
def natOfDigits (l : List Char) : Nat :=
  l.foldl (fun a c => a * 10 + (c.toNat - 48)) 0

/-- The parsing and validation phase of the expression roller `roll` helper:
trim and lowercase the expression, match it against the anchored pattern
digits `d` digits, optionally a sign and digits (the `diceRegex`), then
validate dice count and sides; returns `(count, faces, modifier)`. -/
def parseDiceExpr (expr0 : List Char) : Except String (Nat × Nat × Int) :=
  let expr := trimSpace (expr0.map goToLower)
  let invalid : Except String (Nat × Nat × Int) :=
    .error ("invalid dice expression: " ++ String.mk expr)
  let s1 := expr.span isDigitCh
  if s1.1.isEmpty then invalid
  else match s1.2 with
    | 'd' :: rest2 =>
      let s2 := rest2.span isDigitCh
      if s2.1.isEmpty then invalid
      else
        let modPart : Except String Int :=
          match s2.2 with
          | [] => .ok 0
          | sgn :: rest4 =>
            if sgn == '+' || sgn == '-' then
              let s3 := rest4.span isDigitCh
              if s3.1.isEmpty || !s3.2.isEmpty then
                .error ("invalid dice expression: " ++ String.mk expr)
              else .ok (if sgn == '-' then -(natOfDigits s3.1 : Int)
                        else (natOfDigits s3.1 : Int))
            else .error ("invalid dice expression: " ++ String.mk expr)
        match modPart with
        | .error e => .error e
        | .ok m =>
          let numDice := natOfDigits s1.1
          if numDice < 1 then
            .error ("invalid number of dice: " ++ String.mk s1.1)
          else
            let numSides := natOfDigits s2.1
            if numSides < 1 then
              .error ("invalid number of sides: " ++ String.mk s2.1)
            else .ok (numDice, numSides, m)
    | _ => invalid

/-- Execute a sequence of roll calls on one roller, collecting the
(outcome, error) pairs in order. -/
def runRollSeq (r : Rng) : List RollBuilder → List (RollOutcome × Option String) × Rng
  | [] => ([], r)
  | rb :: rest =>
    let step := Roll rb r
    let tail := runRollSeq step.2.2 rest
    ((step.1, step.2.1) :: tail.1, tail.2)

/-- Canonical detail format stated from the spec's words: the header
`Rolled {count}d{faces}...`, a values clause exactly when there are dice
values, a modifiers clause exactly when there are modifiers, clauses joined
with "; ", and the mandatory result clause `*Result: {final}*` last. -/
def canonicalDetail (rollCount dieFaces : Nat) (rolls : List Int)
    (modifiers : List Modifier) (finalValue : Int) : String :=
  "Rolled " ++ rollCount.repr ++ "d" ++ dieFaces.repr ++ "..." ++
    (if rolls = [] then ""
     else "; " ++ ("values " ++ joinSep ", " (rolls.map Int.repr))) ++
    (if modifiers = [] then ""
     else "; " ++ joinSep ", " (modifiers.map fmtMod)) ++
    ("; " ++ ("*Result: " ++ finalValue.repr ++ "*"))

lemma intn_bounds (n : Nat) (r : Rng) (h : 1 ≤ n) :
    0 ≤ (intn n r).1 ∧ (intn n r).1 < (n : Int) := by
  simp only [intn]
  have h2 := Nat.mod_lt (r.stream r.pos) (show 0 < n by omega)
  exact ⟨by omega, by omega⟩

lemma rollNormal_length (n faces : Nat) (r : Rng) :
    (rollNormal n faces r).1.length = n := by
  induction n generalizing r with
  | zero => simp [rollNormal]
  | succ k ih => simp [rollNormal, ih]

lemma rollNormal_bounds (n faces : Nat) (r : Rng) (h : 1 ≤ faces) :
    ∀ v ∈ (rollNormal n faces r).1, 1 ≤ v ∧ v ≤ (faces : Int) := by
  induction n generalizing r with
  | zero => simp [rollNormal]
  | succ k ih =>
    intro v hv
    simp only [rollNormal, List.mem_cons] at hv
    rcases hv with hv | hv
    · have hb := intn_bounds faces r h
      subst hv
      omega
    · exact ih _ v hv

lemma rollNormal_sum (n faces : Nat) (r : Rng) :
    (rollNormal n faces r).2.1 = (rollNormal n faces r).1.sum := by
  induction n generalizing r with
  | zero => simp [rollNormal]
  | succ k ih => simp [rollNormal, ih]

lemma rollWithSel_length (sel : Int → Int → Int) (n faces : Nat) (r : Rng) :
    (rollWithSel sel n faces r).1.length = 2 * n := by
  induction n generalizing r with
  | zero => simp [rollWithSel]
  | succ k ih => simp [rollWithSel, ih]; omega

lemma rollWithSel_bounds (sel : Int → Int → Int) (n faces : Nat) (r : Rng)
    (h : 1 ≤ faces) :
    ∀ v ∈ (rollWithSel sel n faces r).1, 1 ≤ v ∧ v ≤ (faces : Int) := by
  induction n generalizing r with
  | zero => simp [rollWithSel]
  | succ k ih =>
    intro v hv
    simp only [rollWithSel, List.mem_cons] at hv
    rcases hv with hv | hv | hv
    · have hb := intn_bounds faces r h
      subst hv
      omega
    · have hb := intn_bounds faces (intn faces r).2 h
      subst hv
      omega
    · exact ih _ v hv

lemma rollWithSel_sum (sel : Int → Int → Int) (n faces : Nat) (r : Rng) :
    (rollWithSel sel n faces r).2.1 = pairSelSum sel (rollWithSel sel n faces r).1 := by
  induction n generalizing r with
  | zero => simp [rollWithSel, pairSelSum]
  | succ k ih => simp [rollWithSel, pairSelSum, ih, intn]

@[simp] lemma NewRollOutcome_Value (c f : Nat) (rolls : List Int)
    (mods : List Modifier) (v : Int) :
    (NewRollOutcome c f rolls mods v).Value = v := rfl

@[simp] lemma NewRollOutcome_DiceRolls (c f : Nat) (rolls : List Int)
    (mods : List Modifier) (v : Int) :
    (NewRollOutcome c f rolls mods v).DiceRolls = rolls := rfl

lemma Roll_eq_normal (rb : RollBuilder) (r : Rng) (hc : rb.rollCount ≠ 0)
    (hf : rb.dieFaces ≠ 0) (h : rb.advantageType = .Normal) :
    Roll rb r =
      (NewRollOutcome rb.rollCount rb.dieFaces
        (rollNormal rb.rollCount rb.dieFaces r).1 rb.modifiers
        ((rollNormal rb.rollCount rb.dieFaces r).2.1 + sumMods rb.modifiers),
       none, (rollNormal rb.rollCount rb.dieFaces r).2.2) := by
  unfold Roll
  rw [if_neg hc, if_neg hf, h]

lemma Roll_eq_adv (rb : RollBuilder) (r : Rng) (hc : rb.rollCount ≠ 0)
    (hf : rb.dieFaces ≠ 0) (h : rb.advantageType = .Advantage) :
    Roll rb r =
      (NewRollOutcome rb.rollCount rb.dieFaces
        (rollWithSel max rb.rollCount rb.dieFaces r).1 rb.modifiers
        ((rollWithSel max rb.rollCount rb.dieFaces r).2.1 + sumMods rb.modifiers),
       none, (rollWithSel max rb.rollCount rb.dieFaces r).2.2) := by
  unfold Roll
  rw [if_neg hc, if_neg hf, h]

lemma Roll_eq_dis (rb : RollBuilder) (r : Rng) (hc : rb.rollCount ≠ 0)
    (hf : rb.dieFaces ≠ 0) (h : rb.advantageType = .Disadvantage) :
    Roll rb r =
      (NewRollOutcome rb.rollCount rb.dieFaces
        (rollWithSel min rb.rollCount rb.dieFaces r).1 rb.modifiers
        ((rollWithSel min rb.rollCount rb.dieFaces r).2.1 + sumMods rb.modifiers),
       none, (rollWithSel min rb.rollCount rb.dieFaces r).2.2) := by
  unfold Roll
  rw [if_neg hc, if_neg hf, h]

/-- C1: for every roll request with rollCount ≥ 1 and dieFaces ≥ 1 and every
generator state, the roll engine draws each die in `[1, dieFaces]`; under
Normal `diceRolls` has length rollCount and the total is their sum; under
Advantage both draws of each logical die are appended (length 2·rollCount)
and the maximum of each pair is added to the total; under Disadvantage the
same with the minimum (the final value being the dice total plus the
modifier sum in every mode). -/
theorem c1_roll_engine_modes (rb : RollBuilder) (r : Rng)
    (hc : 1 ≤ rb.rollCount) (hf : 1 ≤ rb.dieFaces) :
    ∃ out r2, Roll rb r = (out, none, r2) ∧
      (∀ v ∈ out.DiceRolls, 1 ≤ v ∧ v ≤ (rb.dieFaces : Int)) ∧
      (rb.advantageType = .Normal →
        out.DiceRolls.length = rb.rollCount ∧
        out.Value = out.DiceRolls.sum + sumMods rb.modifiers) ∧
      (rb.advantageType = .Advantage →
        out.DiceRolls.length = 2 * rb.rollCount ∧
        out.Value = pairSelSum max out.DiceRolls + sumMods rb.modifiers) ∧
      (rb.advantageType = .Disadvantage →
        out.DiceRolls.length = 2 * rb.rollCount ∧
        out.Value = pairSelSum min out.DiceRolls + sumMods rb.modifiers) := by
  have hc0 : rb.rollCount ≠ 0 := by omega
  have hf0 : rb.dieFaces ≠ 0 := by omega
  cases hadv : rb.advantageType with
  | Normal =>
    rw [Roll_eq_normal rb r hc0 hf0 hadv]
    refine ⟨_, _, rfl, ?_, ?_, ?_, ?_⟩
    · intro v hv
      exact rollNormal_bounds rb.rollCount rb.dieFaces r hf v
        (by simpa using hv)
    · intro _
      exact ⟨by simpa using rollNormal_length rb.rollCount rb.dieFaces r,
        by simp [rollNormal_sum]⟩
    · intro h; exact absurd h (by decide)
    · intro h; exact absurd h (by decide)
  | Advantage =>
    rw [Roll_eq_adv rb r hc0 hf0 hadv]
    refine ⟨_, _, rfl, ?_, ?_, ?_, ?_⟩
    · intro v hv
      exact rollWithSel_bounds max rb.rollCount rb.dieFaces r hf v
        (by simpa using hv)
    · intro h; exact absurd h (by decide)
    · intro _
      exact ⟨by simpa using rollWithSel_length max rb.rollCount rb.dieFaces r,
        by simp [rollWithSel_sum]⟩
    · intro h; exact absurd h (by decide)
  | Disadvantage =>
    rw [Roll_eq_dis rb r hc0 hf0 hadv]
    refine ⟨_, _, rfl, ?_, ?_, ?_, ?_⟩
    · intro v hv
      exact rollWithSel_bounds min rb.rollCount rb.dieFaces r hf v
        (by simpa using hv)
    · intro h; exact absurd h (by decide)
    · intro h; exact absurd h (by decide)
    · intro _
      exact ⟨by simpa using rollWithSel_length min rb.rollCount rb.dieFaces r,
        by simp [rollWithSel_sum]⟩

/-- Witness for C1 at a concrete request and generator. -/
theorem c1_roll_engine_modes_witness :
    ∃ out r2,
      Roll (Dice 2 6) (NewRoller fun _ => 0) = (out, none, r2) ∧
      out.DiceRolls.length = 2 := by
  obtain ⟨out, r2, h1, _, h3, _, _⟩ :=
    c1_roll_engine_modes (Dice 2 6) (NewRoller fun _ => 0)
      (by decide) (by decide)
  exact ⟨out, r2, h1, (h3 rfl).1⟩

/-- C2 (amended): for every outcome the roll engine constructs in Normal,
Advantage, or Disadvantage mode, the final value equals the sum of the dice
values selected for the total plus the sum of the modifier values. -/
theorem c2_sum_invariant_engine (rb : RollBuilder) (r : Rng)
    (hc : 1 ≤ rb.rollCount) (hf : 1 ≤ rb.dieFaces) :
    ∃ out r2, Roll rb r = (out, none, r2) ∧
      out.Value =
        (match rb.advantageType with
         | .Normal => out.DiceRolls.sum
         | .Advantage => pairSelSum max out.DiceRolls
         | .Disadvantage => pairSelSum min out.DiceRolls) + sumMods rb.modifiers := by
  have hc0 : rb.rollCount ≠ 0 := by omega
  have hf0 : rb.dieFaces ≠ 0 := by omega
  cases hadv : rb.advantageType with
  | Normal =>
    rw [Roll_eq_normal rb r hc0 hf0 hadv]
    exact ⟨_, _, rfl, by simp [rollNormal_sum]⟩
  | Advantage =>
    rw [Roll_eq_adv rb r hc0 hf0 hadv]
    exact ⟨_, _, rfl, by simp [rollWithSel_sum]⟩
  | Disadvantage =>
    rw [Roll_eq_dis rb r hc0 hf0 hadv]
    exact ⟨_, _, rfl, by simp [rollWithSel_sum]⟩

/-- Witness for C2 at a concrete request and generator. -/
theorem c2_sum_invariant_engine_witness :
    ∃ out r2,
      Roll (Dice 1 20) (NewRoller fun _ => 4) = (out, none, r2) ∧
      out.Value = out.DiceRolls.sum + sumMods (Dice 1 20).modifiers := by
  obtain ⟨out, r2, h1, h2⟩ :=
    c2_sum_invariant_engine (Dice 1 20) (NewRoller fun _ => 4)
      (by decide) (by decide)
  exact ⟨out, r2, h1, h2⟩

/-- Concrete actor used in counterexamples. -/
def cActor : Actor :=
  { id := "investigator", maxHP := 12, currentHP := 12, ac := 10
    initiative := 0, combatModifiers := [], attributes := [("stealth", 45)] }

/-- Counterexample to C2 as stated: the percentile check attaches the target
value as a modifier but sets the final value to the raw d100 result, so the
sum invariant fails for the outcome it constructs (33 ≠ 33 + 45). -/
theorem c2_percentile_counterexample :
    (D100SkillCheck cActor "stealth" (NewRoller fun _ => 3) 0).1.2.1 =
      NewRollOutcome 1 100 [33] [{ Value := 45, Reason := "stealth (target)" }] 33 ∧
    (NewRollOutcome 1 100 [33] [{ Value := 45, Reason := "stealth (target)" }] 33).Value ≠
      ([33] : List Int).sum +
        sumMods [{ Value := 45, Reason := "stealth (target)" }] := by
  exact ⟨rfl, by decide⟩

/-- C4 (amended): the parts-list formatter's detail string follows the
canonical format — the `Rolled {count}d{faces}...` header, a values clause
exactly when dice are present, a modifiers clause exactly when modifiers are
present with `+value reason` (or the negative value's own sign) and
lowercased reasons, clauses joined by "; ", and the mandatory
`*Result: {final}*` clause last.  The `roll_outcome.go` formatter generation
does not follow this format (see the counterexample below). -/
theorem c4_formatter_canonical (rollCount dieFaces : Nat) (rolls : List Int)
    (modifiers : List Modifier) (finalValue : Int) :
    formatRollDetail rollCount dieFaces rolls modifiers finalValue =
      canonicalDetail rollCount dieFaces rolls modifiers finalValue := by
  cases rolls with
  | nil =>
    cases modifiers with
    | nil =>
      simp [formatRollDetail, canonicalDetail, joinSep, String.append_assoc]
      rfl
    | cons m ms =>
      simp [formatRollDetail, canonicalDetail, joinSep, String.append_assoc]
      rfl
  | cons v vs =>
    cases modifiers with
    | nil =>
      simp [formatRollDetail, canonicalDetail, joinSep, String.append_assoc]
      rfl
    | cons m ms =>
      simp [formatRollDetail, canonicalDetail, joinSep, String.append_assoc]
      rfl

/-- Counterexample to C4 as stated: the `formatRollDetail` generation in
`roll_outcome.go` emits the dice values after a bare space with no `values`
keyword, so its detail string does not follow the canonical format the claim
asserts of the formatter. -/
theorem c4_plain_formatter_counterexample :
    formatRollDetailPlain 1 20 [17] [] 17 = "Rolled 1d20... 17; *Result: 17*" ∧
    canonicalDetail 1 20 [17] [] 17 = "Rolled 1d20...; values 17; *Result: 17*" ∧
    formatRollDetailPlain 1 20 [17] [] 17 ≠ canonicalDetail 1 20 [17] [] 17 :=
  ⟨rfl, rfl, by decide⟩

/-- C5 (amended): the expression parser after trimming and lowercasing maps
"2d6" to (2,6,0), "1d20+5" to (1,20,5), "3d8-2" to (3,8,-2) and " 2D6 " to
(2,6,0); it rejects "d20" (the dice count is mandatory), "invalid", "2d",
"0d6", "2d0" and the double-modifier expression "1d20+3+2" with an error. -/
theorem c5_parser_cases :
    parseDiceExpr "2d6".data = .ok (2, 6, 0) ∧
    parseDiceExpr "1d20+5".data = .ok (1, 20, 5) ∧
    parseDiceExpr "3d8-2".data = .ok (3, 8, -2) ∧
    parseDiceExpr " 2D6 ".data = .ok (2, 6, 0) ∧
    parseDiceExpr "d20".data = .error "invalid dice expression: d20" ∧
    parseDiceExpr "invalid".data = .error "invalid dice expression: invalid" ∧
    parseDiceExpr "2d".data = .error "invalid dice expression: 2d" ∧
    parseDiceExpr "0d6".data = .error "invalid number of dice: 0" ∧
    parseDiceExpr "2d0".data = .error "invalid number of sides: 0" ∧
    parseDiceExpr "1d20+3+2".data = .error "invalid dice expression: 1d20+3+2" :=
  ⟨rfl, rfl, rfl, rfl, rfl, rfl, rfl, rfl, rfl, rfl⟩

/-- Counterexample to C5 as stated: the parser in the source rejects the
shorthand "d20" instead of mapping it to (1, 20, 0). -/
theorem c5_shorthand_counterexample :
    parseDiceExpr "d20".data ≠ .ok (1, 20, 0) ∧
    parseDiceExpr "d20".data = .error "invalid dice expression: d20" :=
  ⟨by simp [show parseDiceExpr "d20".data =
      .error "invalid dice expression: d20" from rfl], rfl⟩

/-- C6 (amended): a roll with rollCount = 0 fails with the error
"rollCount must be greater than 0", and one with rollCount ≥ 1 and
dieFaces = 0 fails with "dieFaces must be greater than 0"; in both cases the
checks precede any dice drawing, the generator is returned unchanged, and
the zero-valued outcome accompanies the error. -/
theorem c6_validation_errors (rb : RollBuilder) (r : Rng) :
    (rb.rollCount = 0 → Roll rb r = (zeroOutcome, some errRollCountZero, r)) ∧
    (rb.rollCount ≠ 0 → rb.dieFaces = 0 →
      Roll rb r = (zeroOutcome, some errDieFacesZero, r)) := by
  constructor
  · intro h
    unfold Roll
    rw [if_pos h]
  · intro h1 h2
    unfold Roll
    rw [if_neg h1, if_pos h2]

/-- Witness for C6 at concrete invalid requests. -/
theorem c6_validation_errors_witness :
    Roll (Dice 0 6) (NewRoller fun _ => 0) =
      (zeroOutcome, some errRollCountZero, NewRoller fun _ => 0) ∧
    Roll (Dice 1 0) (NewRoller fun _ => 0) =
      (zeroOutcome, some errDieFacesZero, NewRoller fun _ => 0) :=
  ⟨(c6_validation_errors (Dice 0 6) (NewRoller fun _ => 0)).1 rfl,
   (c6_validation_errors (Dice 1 0) (NewRoller fun _ => 0)).2 (by decide) rfl⟩

/-- Counterexample to C6 as stated: the error texts carry the identifier
spellings "rollCount" and "dieFaces", not "roll count" / "die faces". -/
theorem c6_message_counterexample :
    Roll (Dice 0 6) (NewRoller fun _ => 0) =
      (zeroOutcome, some "rollCount must be greater than 0", NewRoller fun _ => 0) ∧
    errRollCountZero ≠ "roll count must be greater than 0" ∧
    errDieFacesZero ≠ "die faces must be greater than 0" :=
  ⟨rfl, by decide, by decide⟩

/-- C7: two rollers independently constructed from the same seed-determined
draw stream produce identical diceRolls and finalValue sequences on the same
sequence of roll calls. -/
theorem c7_determinism (src : Nat → Nat) (calls : List RollBuilder)
    (r1 r2 : Rng) (h1 : r1 = NewRoller src) (h2 : r2 = NewRoller src) :
    ((runRollSeq r1 calls).1.map fun p => p.1.DiceRolls) =
      ((runRollSeq r2 calls).1.map fun p => p.1.DiceRolls) ∧
    ((runRollSeq r1 calls).1.map fun p => p.1.Value) =
      ((runRollSeq r2 calls).1.map fun p => p.1.Value) := by
  subst h1
  subst h2
  exact ⟨rfl, rfl⟩

/-- Witness for C7 at a concrete stream and call sequence. -/
theorem c7_determinism_witness :
    ((runRollSeq (NewRoller fun _ => 3) [Dice 1 20, Dice 2 6]).1.map
        fun p => p.1.Value) =
      ((runRollSeq (NewRoller fun _ => 3) [Dice 1 20, Dice 2 6]).1.map
        fun p => p.1.Value) :=
  (c7_determinism (fun _ => 3) [Dice 1 20, Dice 2 6]
    (NewRoller fun _ => 3) (NewRoller fun _ => 3) rfl rfl).2

/-- C10: an actor built without error starts at full hit points and carries
the configured id, AC, initiative, attributes, and combat modifiers. -/
theorem c10_build_full_hp (ab : ActorBuilder) (a : Actor)
    (h : Build ab = .ok a) :
    a.currentHP = a.maxHP ∧ a.id = ab.id ∧ a.maxHP = ab.maxHP ∧
    a.ac = ab.ac ∧ a.initiative = ab.initiative ∧
    a.combatModifiers = ab.combatModifiers ∧ a.attributes = ab.attributes := by
  unfold Build at h
  by_cases h1 : ab.maxHP ≤ 0
  · rw [if_pos h1] at h
    cases h
  · rw [if_neg h1] at h
    by_cases h2 : ab.ac ≤ 0
    · rw [if_pos h2] at h
      cases h
    · rw [if_neg h2] at h
      simp only [Except.ok.injEq] at h
      subst h
      simp

/-- Witness for C10 at a concrete builder configuration. -/
theorem c10_build_full_hp_witness :
    ∃ a, Build (NewActor "Aragorn" 45 18) = .ok a ∧
      a.currentHP = a.maxHP ∧ a.maxHP = 45 := by
  refine ⟨_, rfl, ?_, rfl⟩
  exact (c10_build_full_hp (NewActor "Aragorn" 45 18) _ rfl).1

/-- The HP invariant of an actor: current hit points within `[0, maxHP]`. -/
def hpInv (a : Actor) : Prop :=
  0 ≤ a.currentHP ∧ a.currentHP ≤ a.maxHP

/-- An HP operation whose damage/heal amount is non-negative (the validated
operations carry no amount restriction of their own). -/
def nonnegAmount : HPOp → Prop
  | .subHP n => 0 ≤ n
  | .addHP n => 0 ≤ n
  | _ => True

lemma applyHPOp_inv (a : Actor) (op : HPOp) (h : hpInv a)
    (hop : nonnegAmount op) : hpInv (applyHPOp a op) := by
  obtain ⟨h1, h2⟩ := h
  cases op with
  | setHP n =>
    unfold hpInv
    simp only [applyHPOp, SetHP]
    split_ifs with e1 e2 <;> simp <;> omega
  | setMaxHP n =>
    unfold hpInv
    simp only [applyHPOp, SetMaxHP]
    split_ifs with e1 e2 <;> simp <;> omega
  | subHP n =>
    simp only [nonnegAmount] at hop
    unfold hpInv
    simp only [applyHPOp, SubHP]
    split_ifs with e1 <;> simp <;> omega
  | addHP n =>
    simp only [nonnegAmount] at hop
    unfold hpInv
    simp only [applyHPOp, AddHP]
    split_ifs with e1 <;> simp <;> omega
  | resetHP =>
    unfold hpInv
    simp only [applyHPOp, ResetHP]
    simp
    omega

lemma applyHPOps_inv (ops : List HPOp) (a : Actor) (h : hpInv a)
    (hops : ∀ op ∈ ops, nonnegAmount op) : hpInv (applyHPOps a ops) := by
  induction ops generalizing a with
  | nil => exact h
  | cons op rest ih =>
    exact ih (applyHPOp a op) (applyHPOp_inv a op h (hops op (by simp)))
      (fun o ho => hops o (by simp [ho]))

/-- C8 (amended): starting from an actor satisfying the HP invariant, every
sequence of HP operations whose SubHP/AddHP amounts are non-negative keeps
currentHP within `[0, maxHP]` for the current maximum; SetHP with an
argument below 0 or above the maximum errors without mutating the actor, and
SetMaxHP or SetAC with a non-positive argument errors without mutating. -/
theorem c8_hp_clamp (a : Actor) (ops : List HPOp) (n : Int) :
    (hpInv a → (∀ op ∈ ops, nonnegAmount op) → hpInv (applyHPOps a ops)) ∧
    (n < 0 ∨ a.maxHP < n → ∃ e, SetHP a n = (some e, a)) ∧
    (n ≤ 0 → ∃ e, SetMaxHP a n = (some e, a)) ∧
    (n ≤ 0 → ∃ e, SetAC a n = (some e, a)) := by
  refine ⟨fun h hops => applyHPOps_inv ops a h hops, ?_, ?_, ?_⟩
  · intro h
    unfold SetHP
    by_cases h0 : n < 0
    · rw [if_pos h0]
      exact ⟨_, rfl⟩
    · rw [if_neg h0, if_pos (by omega)]
      exact ⟨_, rfl⟩
  · intro h
    unfold SetMaxHP
    rw [if_pos h]
    exact ⟨_, rfl⟩
  · intro h
    unfold SetAC
    rw [if_pos h]
    exact ⟨_, rfl⟩

/-- Concrete actor used for the C8 witness and counterexample. -/
def clampActor : Actor :=
  { id := "fighter", maxHP := 10, currentHP := 10, ac := 15, initiative := 0
    combatModifiers := [], attributes := [] }

/-- Witness for C8 at a concrete actor and operation sequence. -/
theorem c8_hp_clamp_witness :
    hpInv (applyHPOps clampActor [HPOp.subHP 4, HPOp.addHP 2, HPOp.resetHP]) := by
  refine (c8_hp_clamp clampActor [HPOp.subHP 4, HPOp.addHP 2, HPOp.resetHP] 0).1
    ⟨by decide, by decide⟩ ?_
  intro op hop
  fin_cases hop <;> simp [nonnegAmount]

/-- Counterexample to C8 as stated: `SubHP` with a negative amount (allowed
by the signed parameter type) pushes currentHP above the maximum, so not
every operation sequence stays within `[0, maxHP]`. -/
theorem c8_negative_amount_counterexample :
    (applyHPOps clampActor [HPOp.subHP (-5)]).currentHP = 15 ∧
    (applyHPOps clampActor [HPOp.subHP (-5)]).maxHP = 10 ∧
    ¬((applyHPOps clampActor [HPOp.subHP (-5)]).currentHP ≤
        (applyHPOps clampActor [HPOp.subHP (-5)]).maxHP) := by
  refine ⟨rfl, rfl, by decide⟩

/-- The generator after `k` draws. -/
def rngAdvance (r : Rng) (k : Nat) : Rng :=
  { r with pos := r.pos + k }

/-- The `k` d10 values the generator yields starting at its current
position. -/
def tensDraws (r : Rng) (k : Nat) : List Int :=
  (List.range k).map fun i => ((r.stream (r.pos + i) % 10 : Nat) : Int)

lemma tensDraws_succ (r : Rng) (k : Nat) :
    tensDraws r (k + 1) =
      ((r.stream r.pos % 10 : Nat) : Int) :: tensDraws (rngAdvance r 1) k := by
  simp only [tensDraws, rngAdvance, List.range_succ_eq_map, List.map_cons,
    List.map_map, Nat.add_zero, List.cons.injEq, true_and]
  apply List.map_congr_left
  intro i _
  simp only [Function.comp]
  have hidx : r.pos + i.succ = r.pos + 1 + i := by omega
  rw [hidx]

lemma tensDraws_length (r : Rng) (k : Nat) : (tensDraws r k).length = k := by
  simp [tensDraws]

lemma tensDraws_bounds (r : Rng) (k : Nat) :
    ∀ d ∈ tensDraws r k, 0 ≤ d ∧ d ≤ 9 := by
  intro d hd
  simp only [tensDraws, List.mem_map] at hd
  obtain ⟨i, _, hi⟩ := hd
  have := Nat.mod_lt (r.stream (r.pos + i)) (show 0 < 10 by omega)
  omega

lemma bestTensLoop_eq (k : Nat) (acc : Int) (r : Rng) :
    bestTensLoop k acc r =
      ((tensDraws r k).foldl (fun x v => if v < x then v else x) acc,
       rngAdvance r k) := by
  induction k generalizing acc r with
  | zero =>
    simp [bestTensLoop, tensDraws, rngAdvance]
  | succ m ih =>
    rw [tensDraws_succ]
    simp only [bestTensLoop, intn, List.foldl_cons]
    rw [ih]
    congr 1
    simp only [rngAdvance]
    congr 1
    omega

lemma worstTensLoop_eq (k : Nat) (acc : Int) (r : Rng) :
    worstTensLoop k acc r =
      ((tensDraws r k).foldl (fun x v => if v > x then v else x) acc,
       rngAdvance r k) := by
  induction k generalizing acc r with
  | zero =>
    simp [worstTensLoop, tensDraws, rngAdvance]
  | succ m ih =>
    rw [tensDraws_succ]
    simp only [worstTensLoop, intn, List.foldl_cons]
    rw [ih]
    congr 1
    simp only [rngAdvance]
    congr 1
    omega

lemma foldlMin_le (l : List Int) (a : Int) :
    (l.foldl (fun x v => if v < x then v else x) a) ≤ a ∧
    ∀ d ∈ l, (l.foldl (fun x v => if v < x then v else x) a) ≤ d := by
  induction l generalizing a with
  | nil => simp
  | cons v t ih =>
    simp only [List.foldl_cons]
    obtain ⟨ih1, ih2⟩ := ih (if v < a then v else a)
    refine ⟨by split_ifs at ih1 ⊢ <;> omega, ?_⟩
    intro d hd
    rcases List.mem_cons.mp hd with h | h
    · subst h
      split_ifs at ih1 ⊢ <;> omega
    · exact ih2 d h

lemma foldlMin_mem (l : List Int) (a : Int) :
    (l.foldl (fun x v => if v < x then v else x) a) = a ∨
    (l.foldl (fun x v => if v < x then v else x) a) ∈ l := by
  induction l generalizing a with
  | nil => simp
  | cons v t ih =>
    simp only [List.foldl_cons]
    rcases ih (if v < a then v else a) with h | h
    · rw [h]
      split_ifs with hv
      · right
        simp
      · left
        rfl
    · right
      exact List.mem_cons_of_mem _ h

lemma foldlMin_char (l : List Int) (h9 : ∀ d ∈ l, d ≤ 9) (hne : l ≠ []) :
    (l.foldl (fun x v => if v < x then v else x) 9) ∈ l ∧
    ∀ d ∈ l, (l.foldl (fun x v => if v < x then v else x) 9) ≤ d := by
  obtain ⟨hle9, hled⟩ := foldlMin_le l 9
  refine ⟨?_, hled⟩
  rcases foldlMin_mem l 9 with h | h
  · cases l with
    | nil => exact absurd rfl hne
    | cons d0 t =>
      have e1 := hled d0 (by simp)
      have e2 := h9 d0 (by simp)
      have : d0 = (d0 :: t).foldl (fun x v => if v < x then v else x) 9 := by omega
      rw [← this]
      simp
  · exact h

lemma foldlMax_ge (l : List Int) (a : Int) :
    a ≤ (l.foldl (fun x v => if v > x then v else x) a) ∧
    ∀ d ∈ l, d ≤ (l.foldl (fun x v => if v > x then v else x) a) := by
  induction l generalizing a with
  | nil => simp
  | cons v t ih =>
    simp only [List.foldl_cons]
    obtain ⟨ih1, ih2⟩ := ih (if v > a then v else a)
    refine ⟨by split_ifs at ih1 ⊢ <;> omega, ?_⟩
    intro d hd
    rcases List.mem_cons.mp hd with h | h
    · subst h
      split_ifs at ih1 ⊢ <;> omega
    · exact ih2 d h

lemma foldlMax_mem (l : List Int) (a : Int) :
    (l.foldl (fun x v => if v > x then v else x) a) = a ∨
    (l.foldl (fun x v => if v > x then v else x) a) ∈ l := by
  induction l generalizing a with
  | nil => simp
  | cons v t ih =>
    simp only [List.foldl_cons]
    rcases ih (if v > a then v else a) with h | h
    · rw [h]
      split_ifs with hv
      · right
        simp
      · left
        rfl
    · right
      exact List.mem_cons_of_mem _ h

lemma foldlMax_char (l : List Int) (h0 : ∀ d ∈ l, 0 ≤ d) (hne : l ≠ []) :
    (l.foldl (fun x v => if v > x then v else x) 0) ∈ l ∧
    ∀ d ∈ l, d ≤ (l.foldl (fun x v => if v > x then v else x) 0) := by
  obtain ⟨hge0, hged⟩ := foldlMax_ge l 0
  refine ⟨?_, hged⟩
  rcases foldlMax_mem l 0 with h | h
  · cases l with
    | nil => exact absurd rfl hne
    | cons d0 t =>
      have e1 := hged d0 (by simp)
      have e2 := h0 d0 (by simp)
      have : d0 = (d0 :: t).foldl (fun x v => if v > x then v else x) 0 := by omega
      rw [← this]
      simp
  · exact h

/-- C3: for an actor whose attribute map contains the skill key (looked up
case-insensitively), the percentile check computes tens·10 + ones with ones a
single d10 draw and the tens digit the single tens draw when bonus = 0, the
minimum of the 1+bonus tens draws when bonus > 0, and the maximum of the
1+|bonus| tens draws when bonus < 0; a raw result of 0 becomes 100; success
holds iff result ≤ target (so result = target+1 fails and a target of 100
always succeeds); a missing skill key yields the skill-not-found error. -/
theorem c3_percentile_check (a : Actor) (skill : String) (r : Rng) (bonus : Int) :
    (∀ target, attrLookup a.attributes skill = some target →
      ∃ succ out r2, D100SkillCheck a skill r bonus = ((succ, out, none), r2) ∧
        ∃ tens ones : Int,
          ones = ((r.stream (r.pos + (1 + bonus.natAbs)) % 10 : Nat) : Int) ∧
          (bonus = 0 → tens = ((r.stream r.pos % 10 : Nat) : Int)) ∧
          (0 < bonus →
            tens ∈ tensDraws r (1 + bonus.natAbs) ∧
            ∀ d ∈ tensDraws r (1 + bonus.natAbs), tens ≤ d) ∧
          (bonus < 0 →
            tens ∈ tensDraws r (1 + bonus.natAbs) ∧
            ∀ d ∈ tensDraws r (1 + bonus.natAbs), d ≤ tens) ∧
          out.Value = (if tens * 10 + ones = 0 then 100 else tens * 10 + ones) ∧
          out.DiceRolls = [out.Value] ∧
          1 ≤ out.Value ∧ out.Value ≤ 100 ∧
          (succ = true ↔ out.Value ≤ target) ∧
          (out.Value = target + 1 → succ = false) ∧
          (100 ≤ target → succ = true)) ∧
    (attrLookup a.attributes skill = none →
      D100SkillCheck a skill r bonus =
        ((false, zeroOutcome,
          some ("skill \"" ++ skill ++ "\" not found in actor attributes")), r)) := by
  constructor
  · intro target h
    by_cases hb0 : bonus = 0
    · subst hb0
      simp only [D100SkillCheck, h]
      rw [if_pos trivial]
      refine ⟨_, _, _, rfl, (intn 10 r).1, (intn 10 (intn 10 r).2).1,
        ?_, ?_, ?_, ?_, ?_, ?_, ?_, ?_, ?_, ?_, ?_⟩
      · simp [intn]
      · intro _
        rfl
      · intro hh
        exact absurd hh (by omega)
      · intro hh
        exact absurd hh (by omega)
      · rfl
      · rfl
      · have ht := intn_bounds 10 r (by omega)
        have ho := intn_bounds 10 (intn 10 r).2 (by omega)
        simp only [NewRollOutcome_Value]
        try dsimp only
        split_ifs <;> omega
      · have ht := intn_bounds 10 r (by omega)
        have ho := intn_bounds 10 (intn 10 r).2 (by omega)
        simp only [NewRollOutcome_Value]
        try dsimp only
        split_ifs <;> omega
      · simp only [NewRollOutcome_Value]
        exact decide_eq_true_iff
      · intro hv
        simp only [NewRollOutcome_Value] at hv
        refine decide_eq_false ?_
        try dsimp only at hv ⊢
        omega
      · intro htgt
        have ht := intn_bounds 10 r (by omega)
        have ho := intn_bounds 10 (intn 10 r).2 (by omega)
        refine decide_eq_true ?_
        try dsimp only
        split_ifs <;> omega
    · by_cases hbp : 0 < bonus
      · simp only [D100SkillCheck, h]
        rw [if_neg hb0, if_pos hbp,
          show (bonus + 1).toNat = 1 + bonus.natAbs from by omega,
          bestTensLoop_eq]
        have hchar := foldlMin_char (tensDraws r (1 + bonus.natAbs))
          (fun d hd => (tensDraws_bounds r _ d hd).2)
          (by
            have hl := tensDraws_length r (1 + bonus.natAbs)
            intro hnil
            rw [hnil] at hl
            simp at hl
            omega)
        have hdb := tensDraws_bounds r (1 + bonus.natAbs)
        have htb := hdb _ hchar.1
        have ho := intn_bounds 10 (rngAdvance r (1 + bonus.natAbs)) (by omega)
        refine ⟨_, _, _, rfl,
          (tensDraws r (1 + bonus.natAbs)).foldl (fun x v => if v < x then v else x) 9,
          (intn 10 (rngAdvance r (1 + bonus.natAbs))).1,
          ?_, ?_, ?_, ?_, ?_, ?_, ?_, ?_, ?_, ?_, ?_⟩
        · simp [intn, rngAdvance]
        · intro hh
          exact absurd hh hb0
        · intro _
          exact hchar
        · intro hh
          exact absurd hh (by omega)
        · rfl
        · rfl
        · simp only [NewRollOutcome_Value]
          try dsimp only
          split_ifs <;> omega
        · simp only [NewRollOutcome_Value]
          try dsimp only
          split_ifs <;> omega
        · simp only [NewRollOutcome_Value]
          exact decide_eq_true_iff
        · intro hv
          simp only [NewRollOutcome_Value] at hv
          refine decide_eq_false ?_
          try dsimp only at hv ⊢
          omega
        · intro htgt
          refine decide_eq_true ?_
          try dsimp only
          split_ifs <;> omega
      · have hbn : bonus < 0 := by omega
        simp only [D100SkillCheck, h]
        rw [if_neg hb0, if_neg hbp,
          show (-bonus + 1).toNat = 1 + bonus.natAbs from by omega,
          worstTensLoop_eq]
        have hchar := foldlMax_char (tensDraws r (1 + bonus.natAbs))
          (fun d hd => (tensDraws_bounds r _ d hd).1)
          (by
            have hl := tensDraws_length r (1 + bonus.natAbs)
            intro hnil
            rw [hnil] at hl
            simp at hl
            omega)
        have hdb := tensDraws_bounds r (1 + bonus.natAbs)
        have htb := hdb _ hchar.1
        have ho := intn_bounds 10 (rngAdvance r (1 + bonus.natAbs)) (by omega)
        refine ⟨_, _, _, rfl,
          (tensDraws r (1 + bonus.natAbs)).foldl (fun x v => if v > x then v else x) 0,
          (intn 10 (rngAdvance r (1 + bonus.natAbs))).1,
          ?_, ?_, ?_, ?_, ?_, ?_, ?_, ?_, ?_, ?_, ?_⟩
        · simp [intn, rngAdvance]
        · intro hh
          exact absurd hh hb0
        · intro hh
          exact absurd hh (by omega)
        · intro _
          exact hchar
        · rfl
        · rfl
        · simp only [NewRollOutcome_Value]
          try dsimp only
          split_ifs <;> omega
        · simp only [NewRollOutcome_Value]
          try dsimp only
          split_ifs <;> omega
        · simp only [NewRollOutcome_Value]
          exact decide_eq_true_iff
        · intro hv
          simp only [NewRollOutcome_Value] at hv
          refine decide_eq_false ?_
          try dsimp only at hv ⊢
          omega
        · intro htgt
          refine decide_eq_true ?_
          try dsimp only
          split_ifs <;> omega
  · intro h
    simp only [D100SkillCheck, h]

/-- Concrete actor used for the C3 witness. -/
def percActor : Actor :=
  { id := "investigator2", maxHP := 12, currentHP := 12, ac := 10
    initiative := 0, combatModifiers := [], attributes := [("stealth", 45)] }

/-- Witness for C3 at a concrete actor, skill, generator, and bonus level. -/
theorem c3_percentile_check_witness :
    ∃ succ out r2,
      D100SkillCheck percActor "stealth" (NewRoller fun _ => 3) 1 =
        ((succ, out, none), r2) := by
  obtain ⟨succ, out, r2, heq, _⟩ :=
    (c3_percentile_check percActor "stealth" (NewRoller fun _ => 3) 1).1 45 rfl
  exact ⟨succ, out, r2, heq⟩

/-- A character that may appear in a collapsed id: lowercase alphanumeric or
underscore. -/
def normalChar (c : Char) : Bool :=
  isLowerAlnum c || c == '_'

/-- No underscore pair is formed between `c` and the head of the list. -/
def noUnderscorePair (c : Char) : List Char → Bool
  | [] => true
  | d :: _ => !(c == '_' && d == '_')

/-- A list is in collapsed form: every character lowercase alphanumeric or
underscore and no two adjacent underscores. -/
def collapsedOK : List Char → Bool
  | [] => true
  | c :: t => normalChar c && noUnderscorePair c t && collapsedOK t

lemma alnum_ne_underscore {c : Char} (h : isLowerAlnum c = true) :
    (c == '_') = false := by
  have hne : c ≠ '_' := by
    intro he
    subst he
    exact absurd h (by decide)
  exact beq_eq_false_iff_ne.mpr hne

lemma noUnderscorePair_left {c : Char} (h : (c == '_') = false)
    (t : List Char) : noUnderscorePair c t = true := by
  cases t <;> simp [noUnderscorePair, h]

lemma noUnderscorePair_head {c d : Char} (h : (d == '_') = false)
    (t : List Char) : noUnderscorePair c (d :: t) = true := by
  simp [noUnderscorePair, h]

lemma collapseAux_cons_alnum {c : Char} (h : isLowerAlnum c = true)
    (b : Bool) (t : List Char) :
    collapseAux b (c :: t) = c :: collapseAux false t := by
  simp [collapseAux, h]

lemma collapseAux_cons_other_true {c : Char} (h : isLowerAlnum c = false)
    (t : List Char) :
    collapseAux true (c :: t) = collapseAux true t := by
  simp [collapseAux, h]

lemma collapseAux_cons_other_false {c : Char} (h : isLowerAlnum c = false)
    (t : List Char) :
    collapseAux false (c :: t) = '_' :: collapseAux true t := by
  simp [collapseAux, h]

lemma goToLower_fixed {c : Char} (h : normalChar c = true) : goToLower c = c := by
  have hor : isLowerAlnum c = true ∨ c = '_' := by
    simpa [normalChar] using h
  rcases hor with h1 | h1
  · have hb : (97 ≤ c.toNat ∧ c.toNat ≤ 122) ∨ (48 ≤ c.toNat ∧ c.toNat ≤ 57) := by
      simpa [isLowerAlnum, decide_eq_true_iff] using h1
    unfold goToLower
    rw [if_neg (by omega)]
  · subst h1
    decide

lemma collapseAux_chars (l : List Char) :
    ∀ b, ∀ c ∈ collapseAux b l, normalChar c = true := by
  induction l with
  | nil => simp [collapseAux]
  | cons c0 t ih =>
    intro b c hc
    simp only [collapseAux] at hc
    split_ifs at hc with h1 h2
    · rcases List.mem_cons.mp hc with h | h
      · subst h
        simp [normalChar, h1]
      · exact ih false c h
    · exact ih true c hc
    · rcases List.mem_cons.mp hc with h | h
      · subst h
        decide
      · exact ih true c h

lemma collapseAux_true_head (l : List Char) :
    collapseAux true l = [] ∨
    ∃ d t, collapseAux true l = d :: t ∧ isLowerAlnum d = true := by
  induction l with
  | nil => left; rfl
  | cons c0 t ih =>
    by_cases h1 : isLowerAlnum c0 = true
    · right
      exact ⟨c0, collapseAux false t, by simp [collapseAux, h1], h1⟩
    · simpa [collapseAux, h1] using ih

lemma collapsedOK_tail {c : Char} {t : List Char}
    (h : collapsedOK (c :: t) = true) : collapsedOK t = true := by
  simp only [collapsedOK, Bool.and_eq_true] at h
  exact h.2

lemma collapsedOK_collapseAux (l : List Char) :
    ∀ b, collapsedOK (collapseAux b l) = true := by
  induction l with
  | nil => intro b; rfl
  | cons c0 t ih =>
    intro b
    by_cases h1 : isLowerAlnum c0 = true
    · simp only [collapseAux, h1, if_true]
      simp only [collapsedOK, Bool.and_eq_true]
      exact ⟨⟨by simp [normalChar, h1],
        noUnderscorePair_left (alnum_ne_underscore h1) _⟩, ih false⟩
    · cases b with
      | true =>
        simpa [collapseAux, h1] using ih true
      | false =>
        simp only [collapseAux, h1, if_false, if_true]
        simp only [collapsedOK, Bool.and_eq_true]
        refine ⟨⟨by decide, ?_⟩, ih true⟩
        rcases collapseAux_true_head t with he | ⟨d, tt, he, hd⟩
        · rw [he]
          rfl
        · rw [he]
          exact noUnderscorePair_head (alnum_ne_underscore hd) _

lemma collapsedOK_dropWhile (p : Char → Bool) (l : List Char)
    (h : collapsedOK l = true) : collapsedOK (l.dropWhile p) = true := by
  induction l with
  | nil => simpa using h
  | cons c t ih =>
    rw [List.dropWhile_cons]
    split_ifs with hp
    · exact ih (collapsedOK_tail h)
    · exact h

lemma trimTrailing_head (c : Char) (l : List Char) :
    trimTrailing (c :: l) = [] ∨ ∃ t, trimTrailing (c :: l) = c :: t := by
  simp only [trimTrailing]
  split_ifs with h
  · left; rfl
  · right; exact ⟨_, rfl⟩

lemma collapsedOK_trimTrailing (l : List Char)
    (h : collapsedOK l = true) : collapsedOK (trimTrailing l) = true := by
  induction l with
  | nil => simpa using h
  | cons c t ih =>
    simp only [collapsedOK, Bool.and_eq_true] at h
    obtain ⟨⟨h1, h2⟩, h3⟩ := h
    simp only [trimTrailing]
    split_ifs with hc
    · rfl
    · have ht := ih h3
      cases t with
      | nil =>
        simp [collapsedOK, trimTrailing, h1, noUnderscorePair]
      | cons d t2 =>
        rcases trimTrailing_head d t2 with he | ⟨tt, he⟩
        · rw [he]
          simp [collapsedOK, h1, noUnderscorePair]
        · rw [he]
          rw [he] at ht
          simp only [collapsedOK, Bool.and_eq_true] at ht ⊢
          refine ⟨⟨h1, ?_⟩, ht⟩
          have h2d : noUnderscorePair c (d :: t2) = true := h2
          simpa [noUnderscorePair] using h2d

lemma mem_dropWhile {c : Char} (p : Char → Bool) {l : List Char}
    (h : c ∈ l.dropWhile p) : c ∈ l := by
  induction l with
  | nil => simp at h
  | cons d t ih =>
    rw [List.dropWhile_cons] at h
    split_ifs at h with hd
    · exact List.mem_cons_of_mem _ (ih h)
    · exact h

lemma mem_trimTrailing {c : Char} {l : List Char}
    (h : c ∈ trimTrailing l) : c ∈ l := by
  induction l with
  | nil => simp [trimTrailing] at h
  | cons d t ih =>
    simp only [trimTrailing] at h
    split_ifs at h with hd
    · simp at h
    · rcases List.mem_cons.mp h with h | h
      · simp [h]
      · exact List.mem_cons_of_mem _ (ih h)

lemma map_goToLower_id (l : List Char)
    (h : ∀ c ∈ l, normalChar c = true) : l.map goToLower = l := by
  induction l with
  | nil => rfl
  | cons c t ih =>
    rw [List.map_cons, goToLower_fixed (h c (by simp)),
      ih (fun d hd => h d (by simp [hd]))]

lemma collapseAux_false_fixed (l : List Char)
    (h : collapsedOK l = true) : collapseAux false l = l := by
  induction l with
  | nil => rfl
  | cons c t ih =>
    simp only [collapsedOK, Bool.and_eq_true] at h
    obtain ⟨⟨h1, h2⟩, h3⟩ := h
    by_cases ha : isLowerAlnum c = true
    · rw [collapseAux_cons_alnum ha, ih h3]
    · have hc : c = '_' := by
        have hor : isLowerAlnum c = true ∨ c = '_' := by
          simpa [normalChar] using h1
        rcases hor with hx | hx
        · exact absurd hx ha
        · exact hx
      subst hc
      rw [collapseAux_cons_other_false (by decide)]
      cases t with
      | nil => rfl
      | cons d t2 =>
        have hdu : (d == '_') = false := by
          simpa [noUnderscorePair] using h2
        have hd3 := h3
        simp only [collapsedOK, Bool.and_eq_true] at hd3
        have hda : isLowerAlnum d = true := by
          have hord : isLowerAlnum d = true ∨ d = '_' := by
            simpa [normalChar] using hd3.1.1
          rcases hord with hx | hx
          · exact hx
          · subst hx
            exact absurd hdu (by decide)
        have hrec := ih h3
        rw [collapseAux_cons_alnum hda] at hrec
        rw [collapseAux_cons_alnum hda]
        exact congrArg (List.cons '_') hrec

lemma trimTrailing_idem (l : List Char) :
    trimTrailing (trimTrailing l) = trimTrailing l := by
  induction l with
  | nil => rfl
  | cons c t ih =>
    simp only [trimTrailing]
    split_ifs with h
    · rfl
    · simp only [trimTrailing, ih]
      rw [if_neg h]

lemma dropWhile_head_fails (p : Char → Bool) (l : List Char) :
    l.dropWhile p = [] ∨ ∃ d t, l.dropWhile p = d :: t ∧ p d = false := by
  induction l with
  | nil => left; rfl
  | cons c t ih =>
    rw [List.dropWhile_cons]
    split_ifs with h
    · exact ih
    · right
      exact ⟨c, t, rfl, by simpa using h⟩

lemma dropWhile_eq_self_of_head (p : Char → Bool) (l : List Char)
    (h : l = [] ∨ ∃ d t, l = d :: t ∧ p d = false) : l.dropWhile p = l := by
  rcases h with h | ⟨d, t, he, hd⟩
  · simp [h]
  · subst he
    simp [List.dropWhile_cons, hd]

lemma trimUnderscores_fixed_of_self (m : List Char)
    (hm : ∃ l0, m = trimUnderscores l0) : trimUnderscores m = m := by
  obtain ⟨l0, rfl⟩ := hm
  unfold trimUnderscores
  have hhead :
      trimTrailing (l0.dropWhile fun c => c == '_') = [] ∨
      ∃ d t, trimTrailing (l0.dropWhile fun c => c == '_') = d :: t ∧
        (d == '_') = false := by
    rcases dropWhile_head_fails (fun c => c == '_') l0 with he | ⟨d, t, he, hd⟩
    · rw [he]
      left
      rfl
    · rw [he]
      rcases trimTrailing_head d t with he2 | ⟨tt, he2⟩
      · left
        exact he2
      · right
        exact ⟨d, tt, he2, hd⟩
  rw [dropWhile_eq_self_of_head _ _ hhead, trimTrailing_idem]

lemma normalizeChars_fixed (m : List Char)
    (h1 : ∀ c ∈ m, normalChar c = true)
    (h2 : collapsedOK m = true)
    (h3 : trimUnderscores m = m) :
    normalizeChars m = m := by
  unfold normalizeChars
  rw [map_goToLower_id m h1, collapseAux_false_fixed m h2, h3]

/-- C9: the actor-id normalization (lowercase, collapse non-alphanumeric runs
to single underscores, trim leading and trailing underscores) is idempotent. -/
theorem c9_normalize_idempotent (s : String) :
    normalizeID (normalizeID s) = normalizeID s := by
  show String.mk (normalizeChars (normalizeChars s.data)) =
    String.mk (normalizeChars s.data)
  congr 1
  apply normalizeChars_fixed
  · intro c hc
    unfold normalizeChars trimUnderscores at hc
    exact collapseAux_chars _ false c
      (mem_dropWhile _ (mem_trimTrailing hc))
  · exact collapsedOK_trimTrailing _
      (collapsedOK_dropWhile _ _ (collapsedOK_collapseAux _ false))
  · exact trimUnderscores_fixed_of_self _
      ⟨collapseAux false (s.data.map goToLower), rfl⟩

end D20
